import Mathlib

/-!
Shallow embedding of the genhub annotation-reconciliation code
(src/genhub/beebase.py and src/genhub/datatypes.py).

Lines of the input streams are modelled as `List Char` (as produced by
Python file iteration, so a line may carry its trailing newline).  The
Python regular-expression searches used by the code are embedded as
dedicated Lean functions, faithful to `re.search` semantics (leftmost
match; greedy `[^;\n]+` runs; greedy `.*` that does not cross a newline).
Python dictionaries are embedded as association lists where the most
recent binding is found first.  Fatal faults (assertion failures,
`KeyError`, `AttributeError`) are modelled by an `Except Err` result.
-/

/-- The fatal faults the reconciliation code can raise: a failed
`assert` (carrying its message), a dictionary `KeyError` (carrying the
missing key), and the `AttributeError` raised by calling `.group` on a
failed `re.search`. -/
inductive Err where
  | assertFail : List Char → Err
  | keyError : List Char → Err
  | attrError : Err
deriving DecidableEq

instance exceptDecEq {ε α : Type _} [DecidableEq ε] [DecidableEq α] :
    DecidableEq (Except ε α) := fun x y =>
  match x, y with
  | .ok a, .ok b =>
    if h : a = b then isTrue (by rw [h])
    else isFalse (fun hc => h (Except.ok.inj hc))
  | .error e, .error f =>
    if h : e = f then isTrue (by rw [h])
    else isFalse (fun hc => h (Except.error.inj hc))
  | .ok _, .error _ => isFalse (fun hc => Except.noConfusion hc)
  | .error _, .ok _ => isFalse (fun hc => Except.noConfusion hc)

/-- Characters matched by the regex class `[^;\n]`. -/
def isAttrChar (c : Char) : Bool := !(c = ';' || c = '\n')

/-- The greedy run matched by `[^;\n]+` (possibly empty here; callers
check nonemptiness). -/
def attrRun (s : List Char) : List Char := s.takeWhile isAttrChar

/-- Python `\s` whitespace (ASCII). -/
def isSpaceChar (c : Char) : Bool :=
  c = ' ' || c = '\t' || c = '\n' || c = '\r' || c = '\x0b' || c = '\x0c'

/-- Python `sub in s` substring test. -/
def containsSub (sub : List Char) : List Char → Bool
  | [] => sub.isPrefixOf []
  | c :: rest => sub.isPrefixOf (c :: rest) || containsSub sub rest

/-- Python `s.split('\t')`: split on every tab, fields possibly empty. -/
def splitTab : List Char → List (List Char)
  | [] => [[]]
  | c :: rest =>
    if c = '\t' then [] :: splitTab rest
    else
      match splitTab rest with
      | [] => [[c]]
      | f :: fs => (c :: f) :: fs

/-- `re.search('KEY([^;\n]+)', s)`: the leftmost occurrence of the
literal `key` followed by a nonempty `[^;\n]+` run; returns the run. -/
def searchKeyVal (key : List Char) : List Char → Option (List Char)
  | [] => none
  | c :: rest =>
    if key.isPrefixOf (c :: rest) then
      let run := attrRun ((c :: rest).drop key.length)
      if run.isEmpty then searchKeyVal key rest else some run
    else searchKeyVal key rest

/-- The occurrence of `key` followed by a nonempty `[^;\n]+` run that a
greedy `.*` selects: the last such occurrence in `s`. -/
def searchKeyValLast (key : List Char) : List Char → Option (List Char)
  | [] => none
  | c :: rest =>
    match searchKeyValLast key rest with
    | some r => some r
    | none =>
      if key.isPrefixOf (c :: rest) then
        let run := attrRun ((c :: rest).drop key.length)
        if run.isEmpty then none else some run
      else none

/-- `re.search('K1=([^;\n]+);.*K2=([^;\n]+)', s)` (the `locus` and
`mRNA` attribute patterns of `protein_mapping`, beebase.py lines 115 and
128): leftmost start where `k1` is followed by a nonempty run, a literal
`;`, then — within the rest of the same line (`.` does not cross a
newline) — a greedy-`.*`-selected last occurrence of `k2` with a
nonempty run.  `pairDotStarHere` is the attempt at the current start
position; `searchPairDotStar` scans for the leftmost success. -/
def pairDotStarHere (k1 k2 s : List Char) : Option (List Char × List Char) :=
  if k1.isPrefixOf s then
    let r1 := attrRun (s.drop k1.length)
    if r1.isEmpty then none
    else
      match s.drop (k1.length + r1.length) with
      | ';' :: rest2 =>
        match searchKeyValLast k2 (rest2.takeWhile (fun d => d ≠ '\n')) with
        | some r2 => some (r1, r2)
        | none => none
      | _ => none
  else none

def searchPairDotStar (k1 k2 : List Char) : List Char → Option (List Char × List Char)
  | [] => none
  | c :: rest =>
    match pairDotStarHere k1 k2 (c :: rest) with
    | some p => some p
    | none => searchPairDotStar k1 k2 rest

/-- `re.search('K1=([^;\n]+);K2=([^;\n]+)', s)` (the `gene` attribute
pattern of `protein_mapping`, beebase.py line 121): leftmost start where
`k1` is followed by a nonempty run, then immediately `;`, `k2`, and a
nonempty run.  `pairAdjHere` is the attempt at the current start
position; `searchPairAdj` scans for the leftmost success. -/
def pairAdjHere (k1 k2 s : List Char) : Option (List Char × List Char) :=
  if k1.isPrefixOf s then
    let r1 := attrRun (s.drop k1.length)
    if r1.isEmpty then none
    else
      if (';' :: k2).isPrefixOf (s.drop (k1.length + r1.length)) then
        let r2 := attrRun (s.drop (k1.length + r1.length + 1 + k2.length))
        if r2.isEmpty then none else some (r1, r2)
      else none
  else none

def searchPairAdj (k1 k2 : List Char) : List Char → Option (List Char × List Char)
  | [] => none
  | c :: rest =>
    match pairAdjHere k1 k2 (c :: rest) with
    | some p => some p
    | none => searchPairAdj k1 k2 rest

/-- `re.search('>gnl\|[^\|]+\|(\S+)', line)` (beebase.py line 62):
leftmost occurrence of `>gnl|`, a nonempty run without `|`, a `|`, and a
nonempty run of non-whitespace, which is returned.  `gnlHere` is the attempt at the current start
position; `searchGnlProtid` scans for the leftmost success. -/
def gnlHere (s : List Char) : Option (List Char) :=
  if (">gnl|".data).isPrefixOf s then
    let ns := (s.drop 5).takeWhile (fun d => d ≠ '|')
    if ns.isEmpty then none
    else
      match (s.drop 5).drop ns.length with
      | '|' :: rest2 =>
        let protid := rest2.takeWhile (fun d => !isSpaceChar d)
        if protid.isEmpty then none else some protid
      | _ => none
  else none

def searchGnlProtid : List Char → Option (List Char)
  | [] => none
  | c :: rest =>
    match gnlHere (c :: rest) with
    | some p => some p
    | none => searchGnlProtid rest

/-- Fuelled worker for `replaceAll`; the fuel is an upper bound on the
remaining list length, so the `0, s` fallback is never reached from
`replaceAll`. -/
def replaceAllFuel (sub repl : List Char) : Nat → List Char → List Char
  | _, [] => []
  | 0, s => s
  | fuel + 1, c :: rest =>
    if sub.isPrefixOf (c :: rest) ∧ sub ≠ [] then
      repl ++ replaceAllFuel sub repl fuel ((c :: rest).drop sub.length)
    else c :: replaceAllFuel sub repl fuel rest

/-- Python `s.replace(sub, repl)`: replace every occurrence of `sub`,
left to right, without rescanning replacement text. -/
def replaceAll (sub repl s : List Char) : List Char :=
  replaceAllFuel sub repl s.length s

/-- Python whitespace stripped by `str.rstrip()` (ASCII). -/
def isPyWs (c : Char) : Bool :=
  c = ' ' || c = '\t' || c = '\n' || c = '\r' || c = '\x0b' || c = '\x0c'

/-- Python `s.rstrip()`: drop trailing whitespace. -/
def rstrip (s : List Char) : List Char := (s.reverse.dropWhile isPyWs).reverse

/-- Python dict read `d[k]`, on a dict embedded as an association list
whose most recent binding comes first. -/
def lookupA (d : List (List Char × List Char)) (k : List Char) : Option (List Char) :=
  match d with
  | [] => none
  | (k', v) :: rest => if k' = k then some v else lookupA rest k

/-! ## The BeeBaseDB stream transforms (src/genhub/beebase.py) -/

/-- One line of `format_gdna` (beebase.py lines 51-57): a line starting
with `>scaffold` has every occurrence of `scaffold` replaced by
`<label>Scf_`; otherwise a line starting with `>Group` has every
occurrence of `Group` replaced by `<label>Group`; all other lines pass
through. -/
def format_gdna_line (label line : List Char) : List Char :=
  if (">scaffold".data).isPrefixOf line then
    replaceAll ("scaffold".data) (label ++ "Scf_".data) line
  else if (">Group".data).isPrefixOf line then
    replaceAll ("Group".data) (label ++ "Group".data) line
  else line

/-- `format_gdna` over a whole stream: each input line is printed (with
`end=''`) after the per-line rewrite, so the output is the per-line map. -/
def format_gdna (label : List Char) (instream : List (List Char)) : List (List Char) :=
  instream.map (format_gdna_line label)

/-- One line of `format_prot` (beebase.py lines 59-66): a line starting
with `>gnl|` must match `>gnl\|[^\|]+\|(\S+)` (else the `assert` on
line 63 fails with the line as message); the extracted protein id is
spliced in by `line.replace('>', '>%s ' % protid)`, which replaces
every `>` in the line.  Other lines pass through. -/
def format_prot_line (line : List Char) : Except Err (List Char) :=
  if (">gnl|".data).isPrefixOf line then
    match searchGnlProtid line with
    | none => .error (.assertFail line)
    | some protid =>
      .ok (replaceAll (">".data) ('>' :: protid ++ " ".data) line)
  else .ok line

/-- `format_prot` over a whole stream. -/
def format_prot : List (List Char) → Except Err (List (List Char))
  | [] => .ok []
  | line :: rest =>
    match format_prot_line line with
    | .error e => .error e
    | .ok out => (format_prot rest).map (fun outs => out :: outs)

/-- `gff3_protids` (beebase.py lines 95-102): for each line containing
`\tmRNA\t`, parse `Name=([^;\n]+)` (the `assert` on line 100 fails with
message `cannot parse mRNA name: ` ++ line otherwise) and yield the
Name value with every `-RA` replaced by `-PA`; other lines are skipped. -/
def gff3_protids : List (List Char) → Except Err (List (List Char))
  | [] => .ok []
  | line :: rest =>
    if containsSub ("\tmRNA\t".data) line then
      match searchKeyVal ("Name=".data) line with
      | none => .error (.assertFail ("cannot parse mRNA name: ".data ++ line))
      | some name =>
        (gff3_protids rest).map
          (fun outs => replaceAll ("-RA".data) ("-PA".data) name :: outs)
    else gff3_protids rest

/-! ## protein_mapping (beebase.py lines 104-136) -/

/-- The two mutable dictionaries of `protein_mapping`, embedded as
association lists with the most recent binding first. -/
structure PMTables where
  locusid2name : List (List Char × List Char)
  gene2loci : List (List Char × List Char)
deriving DecidableEq

/-- What processing one record of `protein_mapping` does: continue with
(possibly updated) tables, additionally emit one pair, or fail. -/
inductive StepRes where
  | cont : PMTables → StepRes
  | emit : PMTables → List Char × List Char → StepRes
  | fail : Err → StepRes
deriving DecidableEq

/-- The body of the `protein_mapping` loop for one line, given its
tab-split fields (beebase.py lines 107-136).  A line whose tab-split
does not have exactly 9 fields is skipped (the catch-all case).  A `locus` record whose attributes do not match
`ID=([^;\n]+);.*Name=([^;\n]+)` is silently skipped (no `assert`); a
matching one updates `locusid2name`.  A `gene` record must match
`ID=([^;\n]+);Parent=([^;\n]+)` (assert, line 122) and updates
`gene2loci`.  An `mRNA` record must match
`Parent=([^;\n]+);.*Name=([^;\n]+)` (assert, line 130); its protein id
is the Name value with every `-RA` replaced by `-PA`, and the pair is
emitted after resolving `gene2loci[geneid]` then `locusid2name[locusid]`
(each a `KeyError` when missing). -/
def pmStepFields (tabs : PMTables) : List (List Char) → StepRes
  | [_f0, _f1, feattype, _f3, _f4, _f5, _f6, _f7, attrs] =>
    if feattype = "locus".data then
      match searchPairDotStar ("ID=".data) ("Name=".data) attrs with
      | some (locusid, locusname) =>
        .cont ⟨(locusid, locusname) :: tabs.locusid2name, tabs.gene2loci⟩
      | none => .cont tabs
    else if feattype = "gene".data then
      match searchPairAdj ("ID=".data) ("Parent=".data) attrs with
      | none => .fail (.assertFail ("Unable to parse gene and iLocus IDs: ".data ++ attrs))
      | some (geneid, ilocusid) =>
        .cont ⟨tabs.locusid2name, (geneid, ilocusid) :: tabs.gene2loci⟩
    else if feattype = "mRNA".data then
      match searchPairDotStar ("Parent=".data) ("Name=".data) attrs with
      | none => .fail (.assertFail ("Unable to parse mRNA and gene IDs: ".data ++ attrs))
      | some (geneid, name) =>
        match lookupA tabs.gene2loci geneid with
        | none => .fail (.keyError geneid)
        | some locusid =>
          match lookupA tabs.locusid2name locusid with
          | none => .fail (.keyError locusid)
          | some locusname =>
            .emit tabs (replaceAll ("-RA".data) ("-PA".data) name, locusname)
    else .cont tabs
  | _ => .cont tabs

/-- One line of `protein_mapping`: split on tabs, then `pmStepFields`. -/
def pmStep (tabs : PMTables) (line : List Char) : StepRes :=
  pmStepFields tabs (splitTab line)

/-- The `protein_mapping` loop over the remaining stream. -/
def pmGo : List (List Char) → PMTables → Except Err (List (List Char × List Char))
  | [], _ => .ok []
  | line :: rest, tabs =>
    match pmStep tabs line with
    | .fail e => .error e
    | .cont tabs' => pmGo rest tabs'
    | .emit tabs' p => (pmGo rest tabs').map (fun outs => p :: outs)

/-- `protein_mapping` (beebase.py lines 104-136): run the loop from two
empty dictionaries. -/
def protein_mapping (instream : List (List Char)) : Except Err (List (List Char × List Char)) :=
  pmGo instream ⟨[], []⟩

/-! ## parse_intron_accessions (src/genhub/datatypes.py lines 74-94) -/

/-- The opportunistic `id_to_accession` capture (datatypes.py lines
81-86): when both `ID=([^;\n]+)` and `accession=([^;\n]+)` match the
(rstripped) line, record the pair; otherwise leave the table unchanged. -/
def accUpdate (acc : List (List Char × List Char)) (line' : List Char) :
    List (List Char × List Char) :=
  match searchKeyVal ("ID=".data) line', searchKeyVal ("accession=".data) line' with
  | some molid, some accession => (molid, accession) :: acc
  | _, _ => acc

/-- The `parse_intron_accessions` loop (datatypes.py lines 79-94).  Each
line is rstripped, the accession table updated, and then: a line
containing `\tintron\t` must have a `Parent=([^;\n]+)` match (else
`.group(1)` on `None` raises `AttributeError`), whose value must be
comma-free (assert, line 90) and present in the table (else `KeyError`,
line 91); `;accession=<value>` is appended before the line is yielded.
Every other line is yielded (rstripped) unchanged. -/
def pia : List (List Char) → List (List Char × List Char) → Except Err (List (List Char))
  | [], _ => .ok []
  | line :: rest, acc =>
    if containsSub ("\tintron\t".data) (rstrip line) then
      match searchKeyVal ("Parent=".data) (rstrip line) with
      | none => .error .attrError
      | some parentid =>
        if ',' ∈ parentid then .error (.assertFail parentid)
        else
          match lookupA (accUpdate acc (rstrip line)) parentid with
          | none => .error (.keyError parentid)
          | some accession =>
            (pia rest (accUpdate acc (rstrip line))).map
              (fun outs => (rstrip line ++ ";accession=".data ++ accession) :: outs)
    else (pia rest (accUpdate acc (rstrip line))).map (fun outs => rstrip line :: outs)

/-- `parse_intron_accessions`: run the loop from an empty table. -/
def parse_intron_accessions (instream : List (List Char)) : Except Err (List (List Char)) :=
  pia instream []

/-! ## Infrastructure lemmas -/

theorem replaceAllFuel_irrel (sub repl : List Char) :
    ∀ (f g : Nat) (s : List Char), s.length ≤ f → s.length ≤ g →
      replaceAllFuel sub repl f s = replaceAllFuel sub repl g s := by
  intro f
  induction f with
  | zero =>
    intro g s hf _
    have hs : s = [] := List.eq_nil_of_length_eq_zero (Nat.le_zero.mp hf)
    subst hs
    cases g <;> rfl
  | succ f ih =>
    intro g s hf hg
    cases s with
    | nil => cases g <;> rfl
    | cons c rest =>
      cases g with
      | zero => simp at hg
      | succ g' =>
        simp only [replaceAllFuel]
        by_cases h : sub.isPrefixOf (c :: rest) ∧ sub ≠ []
        · rw [if_pos h, if_pos h]
          have hsub : 0 < sub.length := List.length_pos.mpr h.2
          have hlen : ((c :: rest).drop sub.length).length ≤ f := by
            simp only [List.length_drop, List.length_cons]
            simp only [List.length_cons] at hf
            omega
          have hlen' : ((c :: rest).drop sub.length).length ≤ g' := by
            simp only [List.length_drop, List.length_cons]
            simp only [List.length_cons] at hg
            omega
          rw [ih _ _ hlen hlen']
        · rw [if_neg h, if_neg h]
          simp only [List.length_cons] at hf hg
          rw [ih g' rest (by omega) (by omega)]

theorem replaceAll_cons_of_pos {sub : List Char} (repl : List Char) {c : Char}
    {rest : List Char} (h : sub.isPrefixOf (c :: rest)) (hne : sub ≠ []) :
    replaceAll sub repl (c :: rest) =
      repl ++ replaceAll sub repl ((c :: rest).drop sub.length) := by
  show replaceAllFuel sub repl (c :: rest).length (c :: rest) = _
  rw [show (c :: rest).length = rest.length + 1 from rfl]
  simp only [replaceAllFuel]
  rw [if_pos ⟨h, hne⟩]
  congr 1
  refine replaceAllFuel_irrel _ _ _ _ _ ?_ (Nat.le_refl _)
  have hsub : 0 < sub.length := List.length_pos.mpr hne
  simp only [List.length_drop, List.length_cons]
  omega

theorem replaceAll_cons_of_skip {sub : List Char} (repl : List Char) {c : Char}
    {rest : List Char} (h : ¬(sub.isPrefixOf (c :: rest) = true ∧ sub ≠ [])) :
    replaceAll sub repl (c :: rest) = c :: replaceAll sub repl rest := by
  show replaceAllFuel sub repl (c :: rest).length (c :: rest) = _
  rw [show (c :: rest).length = rest.length + 1 from rfl]
  simp only [replaceAllFuel]
  rw [if_neg h]
  rfl

theorem replaceAll_cons_of_neg {sub : List Char} (repl : List Char) {c : Char}
    {rest : List Char} (h : sub.isPrefixOf (c :: rest) = false) :
    replaceAll sub repl (c :: rest) = c :: replaceAll sub repl rest :=
  replaceAll_cons_of_skip repl (fun hc => by rw [h] at hc; exact Bool.false_ne_true hc.1)

theorem replaceAll_sub_append {sub : List Char} (repl t : List Char) (hne : sub ≠ []) :
    replaceAll sub repl (sub ++ t) = repl ++ replaceAll sub repl t := by
  cases sub with
  | nil => exact absurd rfl hne
  | cons s ss =>
    rw [List.cons_append]
    rw [replaceAll_cons_of_pos repl (by simp) (by simp)]
    congr 1
    rw [show (s :: (ss ++ t)).drop (s :: ss).length = ((s :: ss) ++ t).drop (s :: ss).length from rfl]
    rw [List.drop_left]

theorem replaceAll_of_not_contains {sub : List Char} (repl : List Char) {s : List Char}
    (h : containsSub sub s = false) : replaceAll sub repl s = s := by
  induction s with
  | nil => rfl
  | cons c rest ih =>
    rw [containsSub] at h
    simp only [Bool.or_eq_false_iff] at h
    rw [replaceAll_cons_of_neg repl h.1, ih h.2]

theorem replaceAll_self_aux (sub : List Char) :
    ∀ (n : Nat) (s : List Char), s.length ≤ n → replaceAll sub sub s = s := by
  intro n
  induction n with
  | zero =>
    intro s hs
    have : s = [] := List.eq_nil_of_length_eq_zero (Nat.le_zero.mp hs)
    subst this; rfl
  | succ n ih =>
    intro s hs
    cases s with
    | nil => rfl
    | cons c rest =>
      by_cases h : sub.isPrefixOf (c :: rest) ∧ sub ≠ []
      · obtain ⟨t, ht⟩ : sub <+: (c :: rest) := by
          simpa using h.1
        rw [replaceAll_cons_of_pos sub h.1 h.2]
        have hdrop : (c :: rest).drop sub.length = t := by
          rw [← ht, List.drop_left]
        rw [hdrop, ih t ?_, ht]
        have hlen : sub.length + t.length = rest.length + 1 := by
          have := congrArg List.length ht
          simpa using this
        have hsub : 0 < sub.length := List.length_pos.mpr h.2
        simp only [List.length_cons] at hs
        omega
      · rw [replaceAll_cons_of_skip sub h]
        simp only [List.length_cons] at hs
        rw [ih rest (by omega)]

theorem replaceAll_self (sub s : List Char) : replaceAll sub sub s = s :=
  replaceAll_self_aux sub s.length s (Nat.le_refl _)

theorem containsSub_singleton_false {c : Char} {s : List Char} (h : c ∉ s) :
    containsSub [c] s = false := by
  induction s with
  | nil => rfl
  | cons d rest ih =>
    rw [containsSub]
    simp only [Bool.or_eq_false_iff]
    constructor
    · have hcd : c ≠ d := fun he => h (he ▸ List.mem_cons_self d rest)
      simp [List.isPrefixOf, hcd]
    · exact ih (fun hm => h (List.mem_cons_of_mem d hm))

theorem not_prefix_append_cons {p a w : List Char} {c : Char}
    (hpa : ¬ p <+: a) (hc : c ∉ p) : ¬ p <+: a ++ c :: w := by
  intro h
  rcases List.prefix_or_prefix_of_prefix h (List.prefix_append a (c :: w)) with h1 | h2
  · exact hpa h1
  · obtain ⟨d, hd⟩ := h2
    cases d with
    | nil =>
      rw [List.append_nil] at hd
      exact hpa (hd ▸ List.prefix_refl a)
    | cons e d' =>
      have hrest : a ++ e :: d' <+: a ++ c :: w := hd ▸ h
      have hed : e :: d' <+: c :: w := (List.prefix_append_right_inj a).mp hrest
      have hec : e = c := (List.cons_prefix_cons.mp hed).1
      apply hc
      rw [← hd, ← hec]
      exact List.mem_append_right a (List.mem_cons_self e d')

theorem not_prefix_append_cons_drop {p a w : List Char} {c : Char}
    (hpa : ¬ p <+: a) (ha : a ≠ []) (hc : c ∉ p.drop 1) : ¬ p <+: a ++ c :: w := by
  intro h
  rcases List.prefix_or_prefix_of_prefix h (List.prefix_append a (c :: w)) with h1 | h2
  · exact hpa h1
  · obtain ⟨d, hd⟩ := h2
    cases d with
    | nil =>
      rw [List.append_nil] at hd
      exact hpa (hd ▸ List.prefix_refl a)
    | cons e d' =>
      have hrest : a ++ e :: d' <+: a ++ c :: w := hd ▸ h
      have hed : e :: d' <+: c :: w := (List.prefix_append_right_inj a).mp hrest
      have hec : e = c := (List.cons_prefix_cons.mp hed).1
      apply hc
      have hdropa : p.drop a.length = e :: d' := by rw [← hd, List.drop_left]
      have hmem : c ∈ p.drop a.length := by
        rw [hdropa, ← hec]; exact List.mem_cons_self e d'
      have hone : 1 ≤ a.length := List.length_pos.mpr ha
      exact List.IsSuffix.mem hmem (List.drop_suffix_drop_left p hone)

theorem if_isPrefixOf_pos {α : Sort _} {p l : List Char} (h : p <+: l) (a b : α) :
    (if p.isPrefixOf l then a else b) = a := by
  rw [if_pos ( List.isPrefixOf_iff_prefix.mpr h)]

theorem if_isPrefixOf_neg {α : Sort _} {p l : List Char} (h : ¬ p <+: l) (a b : α) :
    (if p.isPrefixOf l then a else b) = b := by
  rw [if_neg (fun hc => h ( List.isPrefixOf_iff_prefix.mp hc))]

theorem isPrefixOf_eq_false_of_not {p l : List Char} (h : ¬ p <+: l) :
    p.isPrefixOf l = false := by
  rw [Bool.eq_false_iff]
  intro hc
  exact h ( List.isPrefixOf_iff_prefix.mp hc)

theorem not_prefix_cons_ne {a b : Char} {p l : List Char} (h : a ≠ b) :
    ¬ (a :: p) <+: (b :: l) :=
  fun hc => h (List.cons_prefix_cons.mp hc).1

theorem format_gdna_line_scaffold (label t : List Char) :
    format_gdna_line label ('>' :: ("scaffold".data ++ t)) =
      '>' :: (label ++ "Scf_".data ++ replaceAll ("scaffold".data) (label ++ "Scf_".data) t) := by
  unfold format_gdna_line
  rw [show (">scaffold".data) = '>' :: "scaffold".data from rfl]
  rw [if_isPrefixOf_pos (List.cons_prefix_cons.mpr ⟨rfl, List.prefix_append _ _⟩)]
  rw [replaceAll_cons_of_neg _ (isPrefixOf_eq_false_of_not ?_)]
  · rw [replaceAll_sub_append _ _ (by decide), List.append_assoc]
  · rw [show ("scaffold".data) = 's' :: "caffold".data from rfl]
    exact not_prefix_cons_ne (by decide)

theorem format_gdna_line_group (label t : List Char) :
    format_gdna_line label ('>' :: ("Group".data ++ t)) =
      '>' :: (label ++ "Group".data ++ replaceAll ("Group".data) (label ++ "Group".data) t) := by
  unfold format_gdna_line
  rw [show (">scaffold".data) = '>' :: "scaffold".data from rfl]
  rw [show (">Group".data) = '>' :: "Group".data from rfl]
  rw [if_isPrefixOf_neg ?_, if_isPrefixOf_pos (List.cons_prefix_cons.mpr ⟨rfl, List.prefix_append _ _⟩)]
  · rw [replaceAll_cons_of_neg _ (isPrefixOf_eq_false_of_not ?_)]
    · rw [replaceAll_sub_append _ _ (by decide), List.append_assoc]
    · rw [show ("Group".data) = 'G' :: "roup".data from rfl]
      rw [show ("Group".data ++ t) = 'G' :: ("roup".data ++ t) from rfl]
      exact not_prefix_cons_ne (by decide)
  · intro hc
    have h2 := (List.cons_prefix_cons.mp hc).2
    rw [show ("scaffold".data) = 's' :: "caffold".data from rfl] at h2
    rw [show ("Group".data ++ t) = 'G' :: ("roup".data ++ t) from rfl] at h2
    exact not_prefix_cons_ne (by decide) h2

theorem format_gdna_line_other (label : List Char) {line : List Char}
    (h1 : ¬ ">scaffold".data <+: line) (h2 : ¬ ">Group".data <+: line) :
    format_gdna_line label line = line := by
  unfold format_gdna_line
  rw [if_isPrefixOf_neg h1, if_isPrefixOf_neg h2]

theorem format_gdna_line_idem (label line : List Char)
    (hs : ¬ "scaffold".data <+: label) (hg : ¬ "Group".data <+: label) :
    format_gdna_line label (format_gdna_line label line) = format_gdna_line label line := by
  by_cases h1 : ">scaffold".data <+: line
  · obtain ⟨t, ht⟩ := h1
    have hline : line = '>' :: ("scaffold".data ++ t) := by rw [← ht]; rfl
    rw [hline, format_gdna_line_scaffold]
    apply format_gdna_line_other
    · intro hc
      rw [show (">scaffold".data) = '>' :: "scaffold".data from rfl] at hc
      have h2 := (List.cons_prefix_cons.mp hc).2
      rw [List.append_assoc] at h2
      rw [show ("Scf_".data ++ replaceAll ("scaffold".data) (label ++ "Scf_".data) t)
            = 'S' :: ("cf_".data ++ replaceAll ("scaffold".data) (label ++ "Scf_".data) t) from rfl] at h2
      exact not_prefix_append_cons hs (by decide) h2
    · intro hc
      rw [show (">Group".data) = '>' :: "Group".data from rfl] at hc
      have h2 := (List.cons_prefix_cons.mp hc).2
      rw [List.append_assoc] at h2
      rw [show ("Scf_".data ++ replaceAll ("scaffold".data) (label ++ "Scf_".data) t)
            = 'S' :: ("cf_".data ++ replaceAll ("scaffold".data) (label ++ "Scf_".data) t) from rfl] at h2
      exact not_prefix_append_cons hg (by decide) h2
  · by_cases h2 : ">Group".data <+: line
    · obtain ⟨t, ht⟩ := h2
      have hline : line = '>' :: ("Group".data ++ t) := by rw [← ht]; rfl
      rw [hline, format_gdna_line_group]
      by_cases hl : label = []
      · subst hl
        simp only [List.nil_append]
        unfold format_gdna_line
        rw [show (">scaffold".data) = '>' :: "scaffold".data from rfl]
        rw [if_isPrefixOf_neg ?_]
        · rw [show (">Group".data) = '>' :: "Group".data from rfl]
          rw [if_isPrefixOf_pos (List.cons_prefix_cons.mpr ⟨rfl, List.prefix_append _ _⟩)]
          simp only [List.nil_append]
          exact replaceAll_self _ _
        · intro hc
          have h3 := (List.cons_prefix_cons.mp hc).2
          rw [show ("Group".data ++ replaceAll ("Group".data) ("Group".data) t)
                = 'G' :: ("roup".data ++ replaceAll ("Group".data) ("Group".data) t) from rfl] at h3
          rw [show ("scaffold".data) = 's' :: "caffold".data from rfl] at h3
          exact not_prefix_cons_ne (by decide) h3
      · apply format_gdna_line_other
        · intro hc
          rw [show (">scaffold".data) = '>' :: "scaffold".data from rfl] at hc
          have h3 := (List.cons_prefix_cons.mp hc).2
          rw [List.append_assoc] at h3
          rw [show ("Group".data ++ replaceAll ("Group".data) (label ++ "Group".data) t)
                = 'G' :: ("roup".data ++ replaceAll ("Group".data) (label ++ "Group".data) t) from rfl] at h3
          exact not_prefix_append_cons hs (by decide) h3
        · intro hc
          rw [show (">Group".data) = '>' :: "Group".data from rfl] at hc
          have h3 := (List.cons_prefix_cons.mp hc).2
          rw [List.append_assoc] at h3
          rw [show ("Group".data ++ replaceAll ("Group".data) (label ++ "Group".data) t)
                = 'G' :: ("roup".data ++ replaceAll ("Group".data) (label ++ "Group".data) t) from rfl] at h3
          exact not_prefix_append_cons_drop hg hl (by decide) h3
    · rw [format_gdna_line_other label h1 h2, format_gdna_line_other label h1 h2]

/-! ## protein_mapping step lemmas -/

theorem pmGo_nil (tabs : PMTables) : pmGo [] tabs = .ok [] := rfl

theorem pmGo_cons_cont {tabs tabs' : PMTables} {line : List Char}
    (rest : List (List Char)) (h : pmStep tabs line = .cont tabs') :
    pmGo (line :: rest) tabs = pmGo rest tabs' := by
  simp only [pmGo, h]

theorem pmGo_cons_emit {tabs tabs' : PMTables} {line : List Char}
    {p : List Char × List Char} (rest : List (List Char))
    (h : pmStep tabs line = .emit tabs' p) :
    pmGo (line :: rest) tabs = (pmGo rest tabs').map (fun outs => p :: outs) := by
  simp only [pmGo, h]

theorem pmGo_cons_fail {tabs : PMTables} {line : List Char} {e : Err}
    (rest : List (List Char)) (h : pmStep tabs line = .fail e) :
    pmGo (line :: rest) tabs = .error e := by
  simp only [pmGo, h]

theorem pmStep_eq_fields {tabs : PMTables} {line : List Char} {fields : List (List Char)}
    (h : splitTab line = fields) : pmStep tabs line = pmStepFields tabs fields := by
  unfold pmStep
  rw [h]

theorem pmStepFields_locus_some {tabs : PMTables}
    {f0 f1 f3 f4 f5 f6 f7 attrs lid lname : List Char}
    (hp : searchPairDotStar ("ID=".data) ("Name=".data) attrs = some (lid, lname)) :
    pmStepFields tabs [f0, f1, "locus".data, f3, f4, f5, f6, f7, attrs] =
      .cont ⟨(lid, lname) :: tabs.locusid2name, tabs.gene2loci⟩ := by
  simp [pmStepFields, hp]

theorem pmStepFields_locus_none {tabs : PMTables}
    {f0 f1 f3 f4 f5 f6 f7 attrs : List Char}
    (hp : searchPairDotStar ("ID=".data) ("Name=".data) attrs = none) :
    pmStepFields tabs [f0, f1, "locus".data, f3, f4, f5, f6, f7, attrs] = .cont tabs := by
  simp [pmStepFields, hp]

theorem pmStepFields_gene_some {tabs : PMTables}
    {f0 f1 f3 f4 f5 f6 f7 attrs gid ilid : List Char}
    (hp : searchPairAdj ("ID=".data) ("Parent=".data) attrs = some (gid, ilid)) :
    pmStepFields tabs [f0, f1, "gene".data, f3, f4, f5, f6, f7, attrs] =
      .cont ⟨tabs.locusid2name, (gid, ilid) :: tabs.gene2loci⟩ := by
  simp [pmStepFields, hp]

theorem pmStepFields_gene_fail {tabs : PMTables}
    {f0 f1 f3 f4 f5 f6 f7 attrs : List Char}
    (hp : searchPairAdj ("ID=".data) ("Parent=".data) attrs = none) :
    pmStepFields tabs [f0, f1, "gene".data, f3, f4, f5, f6, f7, attrs] =
      .fail (.assertFail ("Unable to parse gene and iLocus IDs: ".data ++ attrs)) := by
  simp [pmStepFields, hp]

theorem pmStepFields_mrna_fail_parse {tabs : PMTables}
    {f0 f1 f3 f4 f5 f6 f7 attrs : List Char}
    (hp : searchPairDotStar ("Parent=".data) ("Name=".data) attrs = none) :
    pmStepFields tabs [f0, f1, "mRNA".data, f3, f4, f5, f6, f7, attrs] =
      .fail (.assertFail ("Unable to parse mRNA and gene IDs: ".data ++ attrs)) := by
  simp [pmStepFields, hp]

theorem pmStepFields_mrna_fail_gene {tabs : PMTables}
    {f0 f1 f3 f4 f5 f6 f7 attrs gid name : List Char}
    (hp : searchPairDotStar ("Parent=".data) ("Name=".data) attrs = some (gid, name))
    (hg : lookupA tabs.gene2loci gid = none) :
    pmStepFields tabs [f0, f1, "mRNA".data, f3, f4, f5, f6, f7, attrs] =
      .fail (.keyError gid) := by
  simp [pmStepFields, hp, hg]

theorem pmStepFields_mrna_fail_locus {tabs : PMTables}
    {f0 f1 f3 f4 f5 f6 f7 attrs gid name lid : List Char}
    (hp : searchPairDotStar ("Parent=".data) ("Name=".data) attrs = some (gid, name))
    (hg : lookupA tabs.gene2loci gid = some lid)
    (hl : lookupA tabs.locusid2name lid = none) :
    pmStepFields tabs [f0, f1, "mRNA".data, f3, f4, f5, f6, f7, attrs] =
      .fail (.keyError lid) := by
  simp [pmStepFields, hp, hg, hl]

theorem pmStepFields_mrna_emit {tabs : PMTables}
    {f0 f1 f3 f4 f5 f6 f7 attrs gid name lid lname : List Char}
    (hp : searchPairDotStar ("Parent=".data) ("Name=".data) attrs = some (gid, name))
    (hg : lookupA tabs.gene2loci gid = some lid)
    (hl : lookupA tabs.locusid2name lid = some lname) :
    pmStepFields tabs [f0, f1, "mRNA".data, f3, f4, f5, f6, f7, attrs] =
      .emit tabs (replaceAll ("-RA".data) ("-PA".data) name, lname) := by
  simp [pmStepFields, hp, hg, hl]

/-! ## Nonemptiness of matched runs, and table-lookup facts -/

theorem searchKeyValLast_ne_nil {key : List Char} :
    ∀ {s run : List Char}, searchKeyValLast key s = some run → run ≠ [] := by
  intro s
  induction s with
  | nil => intro run h; exact Option.noConfusion h
  | cons c rest ih =>
    intro run h
    simp only [searchKeyValLast] at h
    cases hr : searchKeyValLast key rest with
    | some r =>
      rw [hr] at h
      have hrr := Option.some.inj h
      exact hrr ▸ ih hr
    | none =>
      rw [hr] at h
      by_cases hp : key.isPrefixOf (c :: rest)
      · rw [if_pos hp] at h
        by_cases he : (attrRun ((c :: rest).drop key.length)).isEmpty
        · rw [if_pos he] at h
          exact Option.noConfusion h
        · rw [if_neg he] at h
          have := Option.some.inj h
          intro hnil
          rw [this, hnil] at he
          exact he rfl
      · rw [if_neg hp] at h
        exact Option.noConfusion h

theorem searchKeyVal_ne_nil {key : List Char} :
    ∀ {s run : List Char}, searchKeyVal key s = some run → run ≠ [] := by
  intro s
  induction s with
  | nil => intro run h; exact Option.noConfusion h
  | cons c rest ih =>
    intro run h
    simp only [searchKeyVal] at h
    by_cases hp : key.isPrefixOf (c :: rest)
    · rw [if_pos hp] at h
      by_cases he : (attrRun ((c :: rest).drop key.length)).isEmpty
      · rw [if_pos he] at h
        exact ih h
      · rw [if_neg he] at h
        have := Option.some.inj h
        intro hnil
        rw [this, hnil] at he
        exact he rfl
    · rw [if_neg hp] at h
      exact ih h

theorem pairDotStarHere_r2_ne_nil {k1 k2 s r1 r2 : List Char}
    (h : pairDotStarHere k1 k2 s = some (r1, r2)) : r2 ≠ [] := by
  unfold pairDotStarHere at h
  by_cases hp : k1.isPrefixOf s
  · rw [if_pos hp] at h
    by_cases he : (attrRun (s.drop k1.length)).isEmpty
    · rw [if_pos he] at h
      exact Option.noConfusion h
    · rw [if_neg he] at h
      split at h
      · split at h
        next r2' hsl =>
          have hpair := Option.some.inj h
          have h2 : r2' = r2 := congrArg Prod.snd hpair
          exact h2 ▸ searchKeyValLast_ne_nil hsl
        next => exact Option.noConfusion h
      · exact Option.noConfusion h
  · rw [if_neg hp] at h
    exact Option.noConfusion h

theorem searchPairDotStar_r2_ne_nil {k1 k2 : List Char} :
    ∀ {s r1 r2 : List Char}, searchPairDotStar k1 k2 s = some (r1, r2) → r2 ≠ [] := by
  intro s
  induction s with
  | nil => intro r1 r2 h; exact Option.noConfusion h
  | cons c rest ih =>
    intro r1 r2 h
    simp only [searchPairDotStar] at h
    cases hh : pairDotStarHere k1 k2 (c :: rest) with
    | some p =>
      rw [hh] at h
      have := Option.some.inj h
      rw [this] at hh
      exact pairDotStarHere_r2_ne_nil hh
    | none =>
      rw [hh] at h
      exact ih h

theorem lookupA_mem {d : List (List Char × List Char)} {k v : List Char}
    (h : lookupA d k = some v) : (k, v) ∈ d := by
  induction d with
  | nil => exact Option.noConfusion h
  | cons kv rest ih =>
    obtain ⟨k', v'⟩ := kv
    simp only [lookupA] at h
    by_cases hk : k' = k
    · rw [if_pos hk] at h
      have hv := Option.some.inj h
      subst hk
      rw [← hv]
      exact List.mem_cons_self _ _
    · rw [if_neg hk] at h
      exact List.mem_cons_of_mem _ (ih h)

/-- A `.cont` step preserves the invariant that every recorded locus
name is nonempty (locus names enter the table only through a successful
`Name=([^;\n]+)` match). -/
theorem pmStepFields_cont_inv {tabs tabs' : PMTables} {fields : List (List Char)}
    (h : pmStepFields tabs fields = .cont tabs')
    (hinv : ∀ kv ∈ tabs.locusid2name, kv.2 ≠ ([] : List Char)) :
    ∀ kv ∈ tabs'.locusid2name, kv.2 ≠ [] := by
  unfold pmStepFields at h
  split at h
  · split at h
    · split at h
      next lid lname hp =>
        have ht := StepRes.cont.inj h
        rw [← ht]
        intro kv hkv
        rcases List.mem_cons.mp hkv with h1 | h2
        · rw [h1]
          exact searchPairDotStar_r2_ne_nil hp
        · exact hinv kv h2
      next =>
        have ht := StepRes.cont.inj h
        rw [← ht]
        exact hinv
    · split at h
      · split at h
        next => exact StepRes.noConfusion h
        next gid ilid hp =>
          have ht := StepRes.cont.inj h
          rw [← ht]
          exact hinv
      · split at h
        · split at h
          next => exact StepRes.noConfusion h
          next gid name hp =>
            split at h
            next => exact StepRes.noConfusion h
            next lid hg =>
              split at h
              next => exact StepRes.noConfusion h
              next lname hl => exact StepRes.noConfusion h
        · have ht := StepRes.cont.inj h
          rw [← ht]
          exact hinv
  · have ht := StepRes.cont.inj h
    rw [← ht]
    exact hinv

/-- An `.emit` step leaves the tables unchanged and its emitted locus
name is a value stored in `locusid2name`. -/
theorem pmStepFields_emit_inv {tabs tabs' : PMTables} {fields : List (List Char)}
    {p : List Char × List Char} (h : pmStepFields tabs fields = .emit tabs' p) :
    tabs' = tabs ∧ ∃ k, (k, p.2) ∈ tabs.locusid2name := by
  unfold pmStepFields at h
  split at h
  · split at h
    · split at h
      next lid lname hp => exact StepRes.noConfusion h
      next => exact StepRes.noConfusion h
    · split at h
      · split at h
        next => exact StepRes.noConfusion h
        next gid ilid hp => exact StepRes.noConfusion h
      · split at h
        · split at h
          next => exact StepRes.noConfusion h
          next gid name hp =>
            split at h
            next => exact StepRes.noConfusion h
            next lid hg =>
              split at h
              next => exact StepRes.noConfusion h
              next lname hl =>
                have ⟨ht, hpv⟩ := StepRes.emit.inj h
                refine ⟨ht.symm, lid, ?_⟩
                rw [← hpv]
                exact lookupA_mem hl
        · exact StepRes.noConfusion h
  · exact StepRes.noConfusion h

/-- Every pair successfully emitted by the `protein_mapping` loop
carries a locus name that is a recorded (hence nonempty) table value. -/
theorem pmGo_ok_names_ne_nil :
    ∀ (s : List (List Char)) (tabs : PMTables) (out : List (List Char × List Char)),
      (∀ kv ∈ tabs.locusid2name, kv.2 ≠ ([] : List Char)) →
      pmGo s tabs = .ok out → ∀ p ∈ out, p.2 ≠ [] := by
  intro s
  induction s with
  | nil =>
    intro tabs out hinv h p hp
    have hout : ([] : List (List Char × List Char)) = out := Except.ok.inj h
    rw [← hout] at hp
    exact absurd hp (List.not_mem_nil p)
  | cons line rest ih =>
    intro tabs out hinv h p hp
    cases hstep : pmStep tabs line with
    | fail e =>
      rw [pmGo_cons_fail rest hstep] at h
      exact Except.noConfusion h
    | cont tabs' =>
      rw [pmGo_cons_cont rest hstep] at h
      exact ih tabs' out (pmStepFields_cont_inv hstep hinv) h p hp
    | emit tabs' q =>
      rw [pmGo_cons_emit rest hstep] at h
      cases hrec : pmGo rest tabs' with
      | error e =>
        rw [hrec] at h
        exact Except.noConfusion h
      | ok outs =>
        rw [hrec] at h
        simp only [Except.map] at h
        have hout := Except.ok.inj h
        obtain ⟨ht, k, hk⟩ := pmStepFields_emit_inv hstep
        rw [← hout] at hp
        rcases List.mem_cons.mp hp with h1 | h2
        · rw [h1]
          exact hinv (k, q.2) hk
        · refine ih tabs' outs ?_ hrec p h2
          rw [ht]
          exact hinv

/-! ## parse_intron_accessions step lemmas -/

theorem pia_cons_not_intron {acc : List (List Char × List Char)} {line : List Char}
    (rest : List (List Char))
    (h : containsSub ("\tintron\t".data) (rstrip line) = false) :
    pia (line :: rest) acc =
      (pia rest (accUpdate acc (rstrip line))).map (fun outs => rstrip line :: outs) := by
  simp [pia, h]

theorem pia_cons_intron_emit {acc : List (List Char × List Char)}
    {line parentid accession : List Char} (rest : List (List Char))
    (hi : containsSub ("\tintron\t".data) (rstrip line) = true)
    (hp : searchKeyVal ("Parent=".data) (rstrip line) = some parentid)
    (hc : ',' ∉ parentid)
    (hl : lookupA (accUpdate acc (rstrip line)) parentid = some accession) :
    pia (line :: rest) acc =
      (pia rest (accUpdate acc (rstrip line))).map
        (fun outs => (rstrip line ++ ";accession=".data ++ accession) :: outs) := by
  simp [pia, hi, hp, hc, hl]

theorem pia_cons_intron_keyerr {acc : List (List Char × List Char)}
    {line parentid : List Char} (rest : List (List Char))
    (hi : containsSub ("\tintron\t".data) (rstrip line) = true)
    (hp : searchKeyVal ("Parent=".data) (rstrip line) = some parentid)
    (hc : ',' ∉ parentid)
    (hl : lookupA (accUpdate acc (rstrip line)) parentid = none) :
    pia (line :: rest) acc = .error (.keyError parentid) := by
  simp [pia, hi, hp, hc, hl]

theorem pia_cons_intron_comma {acc : List (List Char × List Char)}
    {line parentid : List Char} (rest : List (List Char))
    (hi : containsSub ("\tintron\t".data) (rstrip line) = true)
    (hp : searchKeyVal ("Parent=".data) (rstrip line) = some parentid)
    (hc : ',' ∈ parentid) :
    pia (line :: rest) acc = .error (.assertFail parentid) := by
  simp [pia, hi, hp, hc]

theorem pia_cons_intron_noparent {acc : List (List Char × List Char)}
    {line : List Char} (rest : List (List Char))
    (hi : containsSub ("\tintron\t".data) (rstrip line) = true)
    (hp : searchKeyVal ("Parent=".data) (rstrip line) = none) :
    pia (line :: rest) acc = .error .attrError := by
  simp [pia, hi, hp]

/-- A successful `parse_intron_accessions` pass emits exactly one line
per input line. -/
theorem pia_ok_length :
    ∀ (s : List (List Char)) (acc : List (List Char × List Char)) (out : List (List Char)),
      pia s acc = .ok out → out.length = s.length := by
  intro s
  induction s with
  | nil =>
    intro acc out h
    have hout : ([] : List (List Char)) = out := Except.ok.inj h
    rw [← hout]
  | cons line rest ih =>
    intro acc out h
    by_cases hi : containsSub ("\tintron\t".data) (rstrip line) = true
    · cases hp : searchKeyVal ("Parent=".data) (rstrip line) with
      | none =>
        rw [pia_cons_intron_noparent rest hi hp] at h
        exact Except.noConfusion h
      | some parentid =>
        by_cases hc : ',' ∈ parentid
        · rw [pia_cons_intron_comma rest hi hp hc] at h
          exact Except.noConfusion h
        · cases hl : lookupA (accUpdate acc (rstrip line)) parentid with
          | none =>
            rw [pia_cons_intron_keyerr rest hi hp hc hl] at h
            exact Except.noConfusion h
          | some accession =>
            rw [pia_cons_intron_emit rest hi hp hc hl] at h
            cases hrec : pia rest (accUpdate acc (rstrip line)) with
            | error e =>
              rw [hrec] at h
              exact Except.noConfusion h
            | ok outs =>
              rw [hrec] at h
              have hout := Except.ok.inj h
              rw [← hout]
              simp [ih _ _ hrec]
    · rw [pia_cons_not_intron rest (Bool.eq_false_iff.mpr hi)] at h
      cases hrec : pia rest (accUpdate acc (rstrip line)) with
      | error e =>
        rw [hrec] at h
        exact Except.noConfusion h
      | ok outs =>
        rw [hrec] at h
        have hout := Except.ok.inj h
        rw [← hout]
        simp [ih _ _ hrec]

/-! ## format_prot shape lemmas -/

theorem takeWhile_append_all {p : Char → Bool} {a : List Char} {b : Char} (r : List Char)
    (ha : ∀ c ∈ a, p c = true) (hb : p b = false) :
    (a ++ b :: r).takeWhile p = a := by
  induction a with
  | nil => simp [List.takeWhile_cons, hb]
  | cons x xs ih =>
    simp only [List.cons_append, List.takeWhile_cons]
    rw [ha x (List.mem_cons_self x xs)]
    simp only [if_true]
    rw [ih (fun c hc => ha c (List.mem_cons_of_mem x hc))]

theorem gnlHere_shape {NS ID r : List Char}
    (hNS : NS ≠ []) (hNSp : ∀ c ∈ NS, c ≠ '|')
    (hID : ID ≠ []) (hIDs : ∀ c ∈ ID, isSpaceChar c = false) :
    gnlHere ('>' :: ("gnl|".data ++ (NS ++ '|' :: (ID ++ ' ' :: r)))) = some ID := by
  unfold gnlHere
  have hpre : ">gnl|".data <+: '>' :: ("gnl|".data ++ (NS ++ '|' :: (ID ++ ' ' :: r))) :=
    List.prefix_append (">gnl|".data) (NS ++ '|' :: (ID ++ ' ' :: r))
  rw [if_isPrefixOf_pos hpre]
  rw [show (('>' :: ("gnl|".data ++ (NS ++ '|' :: (ID ++ ' ' :: r)))).drop 5)
        = NS ++ '|' :: (ID ++ ' ' :: r) from rfl]
  rw [takeWhile_append_all _ (fun c hc => decide_eq_true (hNSp c hc)) (by decide)]
  rw [if_neg (fun hc => hNS (List.isEmpty_iff.mp hc))]
  rw [List.drop_left]
  change (if (List.takeWhile (fun d => !isSpaceChar d) (ID ++ ' ' :: r)).isEmpty = true then none
          else some (List.takeWhile (fun d => !isSpaceChar d) (ID ++ ' ' :: r))) = some ID
  rw [takeWhile_append_all _ (fun c hc => by rw [Bool.not_eq_true']; exact hIDs c hc) (by decide)]
  rw [if_neg (fun hc => hID (List.isEmpty_iff.mp hc))]

theorem searchGnlProtid_shape {NS ID r : List Char}
    (hNS : NS ≠ []) (hNSp : ∀ c ∈ NS, c ≠ '|')
    (hID : ID ≠ []) (hIDs : ∀ c ∈ ID, isSpaceChar c = false) :
    searchGnlProtid ('>' :: ("gnl|".data ++ (NS ++ '|' :: (ID ++ ' ' :: r)))) = some ID := by
  simp only [searchGnlProtid]
  rw [gnlHere_shape hNS hNSp hID hIDs]

/-! ## Claim theorems -/

/-- C1: for a stream of three 9-column records — a locus with attributes
`ID=L1;Name=LocusA`, then a gene with `ID=G1;Parent=L1`, then an mRNA
with `Parent=G1;Name=T1-RA` — `protein_mapping` yields exactly the one
pair `(T1-PA, LocusA)`: the protein id is the mRNA Name with `-RA`
replaced by `-PA`, resolved through the Gene-ID→Locus-ID table and the
Locus-ID→Locus-Name table built from the earlier gene and locus
records. -/
theorem protein_mapping_three_record_stream
    (l1 l2 l3 a0 a1 a3 a4 a5 a6 a7 b0 b1 b3 b4 b5 b6 b7 c0 c1 c3 c4 c5 c6 c7 : List Char)
    (h1 : splitTab l1 = [a0, a1, "locus".data, a3, a4, a5, a6, a7, "ID=L1;Name=LocusA".data])
    (h2 : splitTab l2 = [b0, b1, "gene".data, b3, b4, b5, b6, b7, "ID=G1;Parent=L1".data])
    (h3 : splitTab l3 = [c0, c1, "mRNA".data, c3, c4, c5, c6, c7, "Parent=G1;Name=T1-RA".data]) :
    protein_mapping [l1, l2, l3] = .ok [("T1-PA".data, "LocusA".data)] := by
  have hp1 : searchPairDotStar ("ID=".data) ("Name=".data) ("ID=L1;Name=LocusA".data) =
      some ("L1".data, "LocusA".data) := by decide
  have hp2 : searchPairAdj ("ID=".data) ("Parent=".data) ("ID=G1;Parent=L1".data) =
      some ("G1".data, "L1".data) := by decide
  have hp3 : searchPairDotStar ("Parent=".data) ("Name=".data) ("Parent=G1;Name=T1-RA".data) =
      some ("G1".data, "T1-RA".data) := by decide
  have s1 : pmStep ⟨[], []⟩ l1 = .cont ⟨[("L1".data, "LocusA".data)], []⟩ := by
    rw [pmStep_eq_fields h1, pmStepFields_locus_some hp1]
  have s2 : pmStep ⟨[("L1".data, "LocusA".data)], []⟩ l2 =
      .cont ⟨[("L1".data, "LocusA".data)], [("G1".data, "L1".data)]⟩ := by
    rw [pmStep_eq_fields h2, pmStepFields_gene_some hp2]
  have hra : replaceAll ("-RA".data) ("-PA".data) ("T1-RA".data) = "T1-PA".data := by decide
  have hg3 : lookupA [("G1".data, "L1".data)] ("G1".data) = some ("L1".data) := by decide
  have hl3 : lookupA [("L1".data, "LocusA".data)] ("L1".data) = some ("LocusA".data) := by decide
  have s3 : pmStep ⟨[("L1".data, "LocusA".data)], [("G1".data, "L1".data)]⟩ l3 =
      .emit ⟨[("L1".data, "LocusA".data)], [("G1".data, "L1".data)]⟩
        ("T1-PA".data, "LocusA".data) := by
    rw [pmStep_eq_fields h3]
    simp [pmStepFields, hp3, hg3, hl3, hra]
  show pmGo [l1, l2, l3] ⟨[], []⟩ = _
  rw [pmGo_cons_cont _ s1, pmGo_cons_cont _ s2, pmGo_cons_emit _ s3, pmGo_nil]
  rfl

/-- Witness for C1 on a fully concrete three-line GFF3-like stream. -/
theorem protein_mapping_three_record_stream_witness :
    protein_mapping
      ["s\t.\tlocus\t1\t2\t.\t+\t.\tID=L1;Name=LocusA".data,
       "s\t.\tgene\t1\t2\t.\t+\t.\tID=G1;Parent=L1".data,
       "s\t.\tmRNA\t1\t2\t.\t+\t.\tParent=G1;Name=T1-RA".data] =
      .ok [("T1-PA".data, "LocusA".data)] :=
  protein_mapping_three_record_stream _ _ _
    ("s".data) (".".data) ("1".data) ("2".data) (".".data) ("+".data) (".".data)
    ("s".data) (".".data) ("1".data) ("2".data) (".".data) ("+".data) (".".data)
    ("s".data) (".".data) ("1".data) ("2".data) (".".data) ("+".data) (".".data)
    (by decide) (by decide) (by decide)

/-- C3: at any point of the pass (any accumulated tables), a 9-column
`gene` record whose attributes do not match `ID=([^;\n]+);Parent=([^;\n]+)`
makes `protein_mapping` fail with the gene assertion, and a 9-column
`mRNA` record whose attributes do not match
`Parent=([^;\n]+);.*Name=([^;\n]+)` makes it fail with the mRNA
assertion; no recovery or default is attempted (the whole run is the
error). -/
theorem protein_mapping_malformed_gene_mrna_assert :
    (∀ (tabs : PMTables) (line : List Char) (rest : List (List Char))
       (f0 f1 f3 f4 f5 f6 f7 attrs : List Char),
       splitTab line = [f0, f1, "gene".data, f3, f4, f5, f6, f7, attrs] →
       searchPairAdj ("ID=".data) ("Parent=".data) attrs = none →
       pmGo (line :: rest) tabs =
         .error (.assertFail ("Unable to parse gene and iLocus IDs: ".data ++ attrs))) ∧
    (∀ (tabs : PMTables) (line : List Char) (rest : List (List Char))
       (f0 f1 f3 f4 f5 f6 f7 attrs : List Char),
       splitTab line = [f0, f1, "mRNA".data, f3, f4, f5, f6, f7, attrs] →
       searchPairDotStar ("Parent=".data) ("Name=".data) attrs = none →
       pmGo (line :: rest) tabs =
         .error (.assertFail ("Unable to parse mRNA and gene IDs: ".data ++ attrs))) := by
  constructor
  · intro tabs line rest f0 f1 f3 f4 f5 f6 f7 attrs h hp
    exact pmGo_cons_fail rest (by rw [pmStep_eq_fields h, pmStepFields_gene_fail hp])
  · intro tabs line rest f0 f1 f3 f4 f5 f6 f7 attrs h hp
    exact pmGo_cons_fail rest (by rw [pmStep_eq_fields h, pmStepFields_mrna_fail_parse hp])

/-- Witness for C3: a gene record with no `Parent=` aborts the run. -/
theorem protein_mapping_malformed_gene_mrna_assert_witness :
    protein_mapping ["s\t.\tgene\t1\t2\t.\t+\t.\tID=G1".data] =
      .error (.assertFail ("Unable to parse gene and iLocus IDs: ".data ++ "ID=G1".data)) :=
  protein_mapping_malformed_gene_mrna_assert.1 ⟨[], []⟩ _ []
    ("s".data) (".".data) ("1".data) ("2".data) (".".data) ("+".data) (".".data)
    ("ID=G1".data) (by decide) (by decide)

/-- C10: a 9-column `locus` record whose attributes do not match
`ID=([^;\n]+);.*Name=([^;\n]+)` is silently skipped — no table entry, no
error, the pass simply continues — in contrast to malformed gene/mRNA
records.  On a concrete stream, the malformed locus surfaces only later
as a key-not-found fault when an mRNA resolves through it, and not at
all when no mRNA does. -/
theorem protein_mapping_malformed_locus_skipped :
    (∀ (tabs : PMTables) (line : List Char) (rest : List (List Char))
       (f0 f1 f3 f4 f5 f6 f7 attrs : List Char),
       splitTab line = [f0, f1, "locus".data, f3, f4, f5, f6, f7, attrs] →
       searchPairDotStar ("ID=".data) ("Name=".data) attrs = none →
       pmGo (line :: rest) tabs = pmGo rest tabs) ∧
    protein_mapping
      ["s\t.\tlocus\t1\t2\t.\t+\t.\tName=LocusA".data,
       "s\t.\tgene\t1\t2\t.\t+\t.\tID=G1;Parent=L1".data,
       "s\t.\tmRNA\t1\t2\t.\t+\t.\tParent=G1;Name=T1-RA".data] =
      .error (.keyError "L1".data) ∧
    protein_mapping
      ["s\t.\tlocus\t1\t2\t.\t+\t.\tName=LocusA".data,
       "s\t.\tgene\t1\t2\t.\t+\t.\tID=G1;Parent=L1".data] = .ok [] := by
  refine ⟨?_, by decide, by decide⟩
  intro tabs line rest f0 f1 f3 f4 f5 f6 f7 attrs h hp
  exact pmGo_cons_cont rest (by rw [pmStep_eq_fields h, pmStepFields_locus_none hp])

/-- Witness for C10: a locus record without `ID=` leaves the pass state
untouched. -/
theorem protein_mapping_malformed_locus_skipped_witness :
    pmGo ["s\t.\tlocus\t1\t2\t.\t+\t.\tName=LocusA".data] ⟨[], []⟩ = pmGo [] ⟨[], []⟩ :=
  protein_mapping_malformed_locus_skipped.1 ⟨[], []⟩ _ []
    ("s".data) (".".data) ("1".data) ("2".data) (".".data) ("+".data) (".".data)
    ("Name=LocusA".data) (by decide) (by decide)

/-- C4 counterexample: a stream consisting of exactly one gene record
whose `Parent` references the never-seen locus `L1` makes
`protein_mapping` succeed with an empty output — it does not fail
fatally, because the gene step only records the dangling reference; the
`KeyError` would fire only at a later mRNA record. -/
theorem protein_mapping_dangling_gene_alone_ok :
    protein_mapping ["s\t.\tgene\t1\t2\t.\t+\t.\tID=G1;Parent=L1".data] = .ok [] := by
  decide

/-- C4 (amended): when an mRNA record resolves through a gene whose
`Parent` locus ID was never recorded, the pass fails fatally with a
key-not-found fault on that locus ID, propagated as the result of the
whole run; and no successful run ever emits a pair with an empty locus
name (every emitted name is a recorded `Name=([^;\n]+)` match). -/
theorem protein_mapping_dangling_locus_key_error :
    (∀ (tabs : PMTables) (gline mline : List Char) (rest : List (List Char))
       (f0 f1 f3 f4 f5 f6 f7 gattrs g0 g1 g3 g4 g5 g6 g7 mattrs gid lid name : List Char),
       splitTab gline = [f0, f1, "gene".data, f3, f4, f5, f6, f7, gattrs] →
       searchPairAdj ("ID=".data) ("Parent=".data) gattrs = some (gid, lid) →
       splitTab mline = [g0, g1, "mRNA".data, g3, g4, g5, g6, g7, mattrs] →
       searchPairDotStar ("Parent=".data) ("Name=".data) mattrs = some (gid, name) →
       lookupA tabs.locusid2name lid = none →
       pmGo (gline :: mline :: rest) tabs = .error (.keyError lid)) ∧
    (∀ (instream : List (List Char)) (out : List (List Char × List Char)),
       protein_mapping instream = .ok out → ∀ p ∈ out, p.2 ≠ []) := by
  constructor
  · intro tabs gline mline rest f0 f1 f3 f4 f5 f6 f7 gattrs g0 g1 g3 g4 g5 g6 g7 mattrs
      gid lid name hg hpg hm hpm hlk
    have s1 : pmStep tabs gline = .cont ⟨tabs.locusid2name, (gid, lid) :: tabs.gene2loci⟩ := by
      rw [pmStep_eq_fields hg, pmStepFields_gene_some hpg]
    rw [pmGo_cons_cont _ s1]
    refine pmGo_cons_fail rest ?_
    rw [pmStep_eq_fields hm]
    refine pmStepFields_mrna_fail_locus hpm ?_ ?_
    · show lookupA ((gid, lid) :: tabs.gene2loci) gid = some lid
      simp [lookupA]
    · exact hlk
  · intro instream out h p hp
    refine pmGo_ok_names_ne_nil instream ⟨[], []⟩ out ?_ h p hp
    intro kv hkv
    exact absurd hkv (List.not_mem_nil kv)

/-- Witness for C4 (amended): gene referencing unseen `L1`, then an mRNA
through that gene — the run aborts with `KeyError` on `L1`. -/
theorem protein_mapping_dangling_locus_key_error_witness :
    pmGo ["s\t.\tgene\t1\t2\t.\t+\t.\tID=G1;Parent=L1".data,
          "s\t.\tmRNA\t1\t2\t.\t+\t.\tParent=G1;Name=T1-RA".data] ⟨[], []⟩ =
      .error (.keyError "L1".data) :=
  protein_mapping_dangling_locus_key_error.1 ⟨[], []⟩ _ _ []
    ("s".data) (".".data) ("1".data) ("2".data) (".".data) ("+".data) (".".data)
    ("ID=G1;Parent=L1".data)
    ("s".data) (".".data) ("1".data) ("2".data) (".".data) ("+".data) (".".data)
    ("Parent=G1;Name=T1-RA".data)
    ("G1".data) ("L1".data) ("T1-RA".data)
    (by decide) (by decide) (by decide) (by decide) (by decide)

/-- C2: `gff3_protids` is a single-pass streaming filter: the empty
stream yields nothing; a line without `\tmRNA\t` contributes nothing; an
mRNA line whose `Name=([^;\n]+)` parses to `name` contributes exactly
one protein id — `name` with every `-RA` replaced by `-PA` — in stream
order, independently of the rest of the stream; an mRNA line whose Name
is absent or unparsable aborts with the assertion; and `Gene1-RA`
derives exactly `Gene1-PA`. -/
theorem gff3_protids_spec :
    (gff3_protids [] = .ok []) ∧
    (∀ (line : List Char) (rest : List (List Char)),
       containsSub ("\tmRNA\t".data) line = false →
       gff3_protids (line :: rest) = gff3_protids rest) ∧
    (∀ (line : List Char) (rest : List (List Char)) (name : List Char),
       containsSub ("\tmRNA\t".data) line = true →
       searchKeyVal ("Name=".data) line = some name →
       gff3_protids (line :: rest) =
         (gff3_protids rest).map
           (fun outs => replaceAll ("-RA".data) ("-PA".data) name :: outs)) ∧
    (∀ (line : List Char) (rest : List (List Char)),
       containsSub ("\tmRNA\t".data) line = true →
       searchKeyVal ("Name=".data) line = none →
       gff3_protids (line :: rest) =
         .error (.assertFail ("cannot parse mRNA name: ".data ++ line))) ∧
    replaceAll ("-RA".data) ("-PA".data) ("Gene1-RA".data) = "Gene1-PA".data := by
  refine ⟨rfl, ?_, ?_, ?_, by decide⟩
  · intro line rest h
    simp [gff3_protids, h]
  · intro line rest name hm hn
    simp [gff3_protids, hm, hn]
  · intro line rest hm hn
    simp [gff3_protids, hm, hn]

/-- Witness for C2: one mRNA line between two non-mRNA lines yields
exactly its derived protein id. -/
theorem gff3_protids_spec_witness :
    gff3_protids ["# comment".data, "a\tmRNA\tx;Name=Gene1-RA\n".data, "seq".data] =
      .ok ["Gene1-PA".data] := by
  have h := gff3_protids_spec
  rw [h.2.1 _ _ (by decide)]
  rw [h.2.2.1 _ _ ("Gene1-RA".data) (by decide) (by decide)]
  rw [h.2.1 _ _ (by decide)]
  rw [h.1]
  decide

/-- C5: the intron-accession attachment.  (a) If an earlier non-intron
line records `ID=T;accession=ACC` and a later intron line (itself
carrying no `accession=`) has the single comma-free parent `T`, the
intron is re-emitted as its rstripped text with `;accession=ACC`
appended exactly once, the earlier line re-emitted before it, the rest
of the stream processed independently afterwards.  (b) An intron whose
parsed parent has no recorded accession aborts with a key-not-found
fault.  (c) An intron whose parsed parent contains a comma aborts with
the assertion rather than picking one parent. -/
theorem parse_intron_accessions_attach :
    (∀ (acc : List (List Char × List Char)) (rest : List (List Char))
       (prev intr T ACC : List Char),
       searchKeyVal ("ID=".data) (rstrip prev) = some T →
       searchKeyVal ("accession=".data) (rstrip prev) = some ACC →
       containsSub ("\tintron\t".data) (rstrip prev) = false →
       containsSub ("\tintron\t".data) (rstrip intr) = true →
       searchKeyVal ("Parent=".data) (rstrip intr) = some T →
       ',' ∉ T →
       searchKeyVal ("accession=".data) (rstrip intr) = none →
       pia (prev :: intr :: rest) acc =
         (pia rest ((T, ACC) :: acc)).map
           (fun outs =>
             rstrip prev :: (rstrip intr ++ ";accession=".data ++ ACC) :: outs)) ∧
    (∀ (acc : List (List Char × List Char)) (rest : List (List Char))
       (intr P : List Char),
       containsSub ("\tintron\t".data) (rstrip intr) = true →
       searchKeyVal ("Parent=".data) (rstrip intr) = some P →
       ',' ∉ P →
       lookupA (accUpdate acc (rstrip intr)) P = none →
       pia (intr :: rest) acc = .error (.keyError P)) ∧
    (∀ (acc : List (List Char × List Char)) (rest : List (List Char))
       (intr P : List Char),
       containsSub ("\tintron\t".data) (rstrip intr) = true →
       searchKeyVal ("Parent=".data) (rstrip intr) = some P →
       ',' ∈ P →
       pia (intr :: rest) acc = .error (.assertFail P)) := by
  refine ⟨?_, ?_, ?_⟩
  · intro acc rest prev intr T ACC hId hAcc hPrevNI hIntr hParent hNoComma hIntrNoAcc
    have hacc1 : accUpdate acc (rstrip prev) = (T, ACC) :: acc := by
      simp [accUpdate, hId, hAcc]
    have hacc2 : accUpdate ((T, ACC) :: acc) (rstrip intr) = (T, ACC) :: acc := by
      cases hidm : searchKeyVal ("ID=".data) (rstrip intr) <;>
        simp [accUpdate, hidm, hIntrNoAcc]
    have hlk : lookupA (accUpdate ((T, ACC) :: acc) (rstrip intr)) T = some ACC := by
      rw [hacc2]
      simp [lookupA]
    rw [pia_cons_not_intron _ hPrevNI, hacc1]
    rw [pia_cons_intron_emit rest hIntr hParent hNoComma hlk]
    rw [hacc2]
    cases hrec : pia rest ((T, ACC) :: acc) with
    | error e => rfl
    | ok outs => rfl
  · intro acc rest intr P hi hp hc hl
    exact pia_cons_intron_keyerr rest hi hp hc hl
  · intro acc rest intr P hi hp hc
    exact pia_cons_intron_comma rest hi hp hc

/-- Witness for C5 on a concrete two-line stream: the accession recorded
on the mRNA line is appended exactly once to its intron. -/
theorem parse_intron_accessions_attach_witness :
    parse_intron_accessions
      ["s\t.\tmRNA\t1\t2\t.\t+\t.\tID=T1;accession=ACC1\n".data,
       "s\t.\tintron\t3\t4\t.\t+\t.\tParent=T1\n".data] =
      .ok ["s\t.\tmRNA\t1\t2\t.\t+\t.\tID=T1;accession=ACC1".data,
           "s\t.\tintron\t3\t4\t.\t+\t.\tParent=T1;accession=ACC1".data] := by
  have h := parse_intron_accessions_attach.1 [] []
    ("s\t.\tmRNA\t1\t2\t.\t+\t.\tID=T1;accession=ACC1\n".data)
    ("s\t.\tintron\t3\t4\t.\t+\t.\tParent=T1\n".data)
    ("T1".data) ("ACC1".data)
    (by decide) (by decide) (by decide) (by decide) (by decide) (by decide) (by decide)
  show pia _ [] = _
  rw [h]
  decide

/-- C6 counterexample: a non-intron input line carrying its trailing
newline is NOT yielded unchanged — `parse_intron_accessions` rstrips
every line before re-emitting it (datatypes.py line 80), so the claim's
"identity transform" fails on any line with trailing whitespace. -/
theorem parse_intron_accessions_strips_trailing_ws :
    parse_intron_accessions ["a\tx\tgene\n".data] = .ok ["a\tx\tgene".data] ∧
    "a\tx\tgene".data ≠ "a\tx\tgene\n".data := by
  decide

/-- C6 (amended): `parse_intron_accessions` re-emits exactly one line
per input line, in input order, each produced from its input line alone
as soon as it is read (the head of the output is independent of the rest
of the stream): a line whose rstripped text does not contain
`\tintron\t` is yielded as its rstripped text — hence exactly unchanged
whenever it has no trailing whitespace — and only intron lines are
modified further. -/
theorem parse_intron_accessions_stream_spec :
    (∀ (acc : List (List Char × List Char)), pia [] acc = .ok []) ∧
    (∀ (acc : List (List Char × List Char)) (line : List Char) (rest : List (List Char)),
       containsSub ("\tintron\t".data) (rstrip line) = false →
       pia (line :: rest) acc =
         (pia rest (accUpdate acc (rstrip line))).map (fun outs => rstrip line :: outs)) ∧
    (∀ (acc : List (List Char × List Char)) (line : List Char) (rest : List (List Char)),
       rstrip line = line →
       containsSub ("\tintron\t".data) line = false →
       pia (line :: rest) acc =
         (pia rest (accUpdate acc line)).map (fun outs => line :: outs)) ∧
    (∀ (s : List (List Char)) (acc : List (List Char × List Char)) (out : List (List Char)),
       pia s acc = .ok out → out.length = s.length) := by
  refine ⟨fun acc => rfl, ?_, ?_, pia_ok_length⟩
  · intro acc line rest h
    exact pia_cons_not_intron rest h
  · intro acc line rest hr h
    have h2 : containsSub ("\tintron\t".data) (rstrip line) = false := by
      rw [hr]
      exact h
    have h3 := @pia_cons_not_intron acc line rest h2
    rw [hr] at h3
    exact h3

/-- Witness for C6 (amended): a whitespace-free non-intron line passes
through unchanged, with the remaining stream handled separately. -/
theorem parse_intron_accessions_stream_spec_witness :
    pia ["abc".data] [] = (pia [] (accUpdate [] ("abc".data))).map
      (fun outs => "abc".data :: outs) :=
  parse_intron_accessions_stream_spec.2.2.1 [] ("abc".data) [] (by decide) (by decide)

/-- C7 counterexample: `format_gdna` rewrites a `>scaffold` header with
Python `str.replace`, which replaces EVERY occurrence of `scaffold`, not
just the prefix: with label `X` the line `>scaffold1 scaffold2` becomes
`>XScf_1 XScf_2`, which differs from the prefix-only rewrite
`>XScf_` ++ (the line after its `>scaffold` prefix). -/
theorem format_gdna_rewrites_beyond_the_prefix :
    format_gdna_line ("X".data) (">scaffold1 scaffold2".data) = ">XScf_1 XScf_2".data ∧
    ">XScf_1 XScf_2".data ≠ ">XScf_".data ++ ((">scaffold1 scaffold2".data).drop 9) := by
  decide

/-- C7 (amended): `format_gdna` preserves the line count; lines not
starting with `>` pass through byte-for-byte; a `>scaffold` header is
rewritten by replacing every occurrence of `scaffold` with
`<label>Scf_` — so when the token occurs only as the prefix, only the
prefix is altered — and `>scaffold123` becomes `><label>Scf_123`,
`>Group7` becomes `><label>Group7`. -/
theorem format_gdna_spec :
    (∀ (label : List Char) (instream : List (List Char)),
       (format_gdna label instream).length = instream.length) ∧
    (∀ (label line : List Char), ¬ ['>'] <+: line → format_gdna_line label line = line) ∧
    (∀ (label t : List Char),
       format_gdna_line label ('>' :: ("scaffold".data ++ t)) =
         '>' :: (label ++ "Scf_".data ++
           replaceAll ("scaffold".data) (label ++ "Scf_".data) t)) ∧
    (∀ (label t : List Char), containsSub ("scaffold".data) t = false →
       format_gdna_line label ('>' :: ("scaffold".data ++ t)) =
         '>' :: (label ++ "Scf_".data ++ t)) ∧
    (∀ (label : List Char),
       format_gdna_line label (">scaffold123".data) = '>' :: (label ++ "Scf_123".data)) ∧
    (∀ (label : List Char),
       format_gdna_line label (">Group7".data) = '>' :: (label ++ "Group7".data)) := by
  have hscf : ∀ (label t : List Char), containsSub ("scaffold".data) t = false →
      format_gdna_line label ('>' :: ("scaffold".data ++ t)) =
        '>' :: (label ++ "Scf_".data ++ t) := by
    intro label t h
    rw [format_gdna_line_scaffold, replaceAll_of_not_contains _ h]
  refine ⟨?_, ?_, format_gdna_line_scaffold, hscf, ?_, ?_⟩
  · intro label instream
    simp [format_gdna]
  · intro label line h
    refine format_gdna_line_other label ?_ ?_
    · intro hc
      exact h (List.IsPrefix.trans (by decide) hc)
    · intro hc
      exact h (List.IsPrefix.trans (by decide) hc)
  · intro label
    have := hscf label ("123".data) (by decide)
    rw [show ('>' :: ("scaffold".data ++ "123".data)) = ">scaffold123".data from rfl] at this
    rw [List.append_assoc] at this
    rw [show ("Scf_".data ++ "123".data) = "Scf_123".data from rfl] at this
    exact this
  · intro label
    have := format_gdna_line_group label ("7".data)
    rw [show ('>' :: ("Group".data ++ "7".data)) = ">Group7".data from rfl] at this
    rw [replaceAll_of_not_contains _ (show containsSub ("Group".data) ("7".data) = false
      from by decide)] at this
    rw [List.append_assoc] at this
    rw [show ("Group".data ++ "7".data) = "Group7".data from rfl] at this
    exact this

/-- Witness for C7 (amended) at label `X`. -/
theorem format_gdna_spec_witness :
    format_gdna_line ("X".data) (">scaffold123".data) = '>' :: ("X".data ++ "Scf_123".data) :=
  format_gdna_spec.2.2.2.2.1 ("X".data)

/-- C8 counterexample: a second `format_gdna` pass is NOT a no-op for
every label — with label `scaffold`, the first pass turns `>scaffold1`
into `>scaffoldScf_1`, which still starts with `>scaffold`, so the
second pass rewrites again. -/
theorem format_gdna_not_idempotent_for_scaffold_label :
    format_gdna ("scaffold".data) (format_gdna ("scaffold".data) [">scaffold1".data]) ≠
      format_gdna ("scaffold".data) [">scaffold1".data] := by
  decide

/-- C8 (amended): a second `format_gdna` pass leaves the output
unchanged for every label that does not itself start with the token
`scaffold` or the token `Group` (the rewritten header then no longer
starts with `>scaffold`/`>Group`, except for the empty label's
`>Group` case, where the repeated replacement is the identity). -/
theorem format_gdna_idempotent_of_label
    (label : List Char)
    (hs : ¬ "scaffold".data <+: label) (hg : ¬ "Group".data <+: label)
    (instream : List (List Char)) :
    format_gdna label (format_gdna label instream) = format_gdna label instream := by
  unfold format_gdna
  rw [List.map_map]
  apply List.map_congr_left
  intro line _
  show format_gdna_line label (format_gdna_line label line) = format_gdna_line label line
  exact format_gdna_line_idem label line hs hg

/-- Witness for C8 (amended) at the species-style label `Hlab`. -/
theorem format_gdna_idempotent_of_label_witness :
    format_gdna ("Hlab".data) (format_gdna ("Hlab".data) [">scaffold1".data, ">Group7".data, "ACGT".data]) =
      format_gdna ("Hlab".data) [">scaffold1".data, ">Group7".data, "ACGT".data] :=
  format_gdna_idempotent_of_label ("Hlab".data) (by decide) (by decide) _

/-- C9 counterexample: `format_prot` splices the protein id in with
Python `line.replace('>', ...)`, which replaces EVERY `>` in the line:
on `>gnl|NS|P001 a>b` the output duplicates the id after the inner `>`
too, so the original line content is not retained. -/
theorem format_prot_replaces_every_gt :
    format_prot_line (">gnl|NS|P001 a>b".data) = .ok (">P001 gnl|NS|P001 a>P001 b".data) ∧
    ">P001 gnl|NS|P001 a>P001 b".data ≠ ">P001 ".data ++ "gnl|NS|P001 a>b".data := by
  decide

/-- C9 (amended): a protein header `>gnl|NS|ID rest` (NS nonempty
without `|`, ID a nonempty whitespace-free run) whose only `>` is the
leading one is rewritten to `>ID gnl|NS|ID rest` — the id duplicated
into the leading position, the original content retained; a line
starting `>gnl|` on which the pattern matches nowhere aborts with the
assertion carrying the line; a line not starting `>gnl|` passes through
unchanged, each line handled independently in stream order. -/
theorem format_prot_spec :
    (∀ (NS ID r : List Char),
       NS ≠ [] → (∀ c ∈ NS, c ≠ '|') →
       ID ≠ [] → (∀ c ∈ ID, isSpaceChar c = false) →
       '>' ∉ NS → '>' ∉ ID → '>' ∉ r →
       format_prot_line ('>' :: ("gnl|".data ++ (NS ++ '|' :: (ID ++ ' ' :: r)))) =
         .ok ('>' :: (ID ++ ' ' :: ("gnl|".data ++ (NS ++ '|' :: (ID ++ ' ' :: r)))))) ∧
    (∀ (line : List Char) (rest : List (List Char)),
       (">gnl|".data).isPrefixOf line = true →
       searchGnlProtid line = none →
       format_prot (line :: rest) = .error (.assertFail line)) ∧
    (∀ (line : List Char) (rest : List (List Char)),
       ¬ ">gnl|".data <+: line →
       format_prot (line :: rest) = (format_prot rest).map (fun outs => line :: outs)) := by
  refine ⟨?_, ?_, ?_⟩
  · intro NS ID r hNS hNSp hID hIDs hgtNS hgtID hgtr
    unfold format_prot_line
    have hpre : ">gnl|".data <+: '>' :: ("gnl|".data ++ (NS ++ '|' :: (ID ++ ' ' :: r))) :=
      List.prefix_append (">gnl|".data) (NS ++ '|' :: (ID ++ ' ' :: r))
    rw [if_isPrefixOf_pos hpre]
    rw [searchGnlProtid_shape hNS hNSp hID hIDs]
    have hnogt : containsSub [('>' : Char)] ("gnl|".data ++ (NS ++ '|' :: (ID ++ ' ' :: r))) = false := by
      apply containsSub_singleton_false
      intro hmem
      rw [List.mem_append] at hmem
      rcases hmem with h1 | h2
      · exact absurd h1 (by decide)
      · rw [List.mem_append] at h2
        rcases h2 with h3 | h4
        · exact hgtNS h3
        · rcases List.mem_cons.mp h4 with h5 | h6
          · exact absurd h5 (by decide)
          · rw [List.mem_append] at h6
            rcases h6 with h7 | h8
            · exact hgtID h7
            · rcases List.mem_cons.mp h8 with h9 | h10
              · exact absurd h9 (by decide)
              · exact hgtr h10
    have hrepl : replaceAll (">".data) ('>' :: (ID ++ " ".data))
        ('>' :: ("gnl|".data ++ (NS ++ '|' :: (ID ++ ' ' :: r)))) =
        '>' :: (ID ++ ' ' :: ("gnl|".data ++ (NS ++ '|' :: (ID ++ ' ' :: r)))) := by
      rw [show (">".data) = [('>' : Char)] from rfl]
      rw [replaceAll_cons_of_pos _ (by simp [List.isPrefixOf]) (by decide)]
      rw [show ((('>' : Char) :: ("gnl|".data ++ (NS ++ '|' :: (ID ++ ' ' :: r)))).drop
            ([('>' : Char)]).length) = "gnl|".data ++ (NS ++ '|' :: (ID ++ ' ' :: r)) from rfl]
      rw [replaceAll_of_not_contains _ hnogt]
      simp
    show Except.ok (replaceAll (">".data) ('>' :: ID ++ " ".data)
        ('>' :: ("gnl|".data ++ (NS ++ '|' :: (ID ++ ' ' :: r))))) =
      Except.ok ('>' :: (ID ++ ' ' :: ("gnl|".data ++ (NS ++ '|' :: (ID ++ ' ' :: r)))))
    rw [show ('>' :: ID ++ " ".data) = ('>' :: (ID ++ " ".data)) from rfl]
    rw [hrepl]
  · intro line rest hpre hnone
    have hline : format_prot_line line = .error (.assertFail line) := by
      unfold format_prot_line
      rw [if_pos hpre, hnone]
    simp [format_prot, hline]
  · intro line rest h
    have hline : format_prot_line line = .ok line := by
      unfold format_prot_line
      rw [if_isPrefixOf_neg h]
    simp [format_prot, hline]

/-- Witness for C9 (amended) on a concrete header. -/
theorem format_prot_spec_witness :
    format_prot_line (">gnl|NS|P001 extra text".data) =
      .ok (">P001 gnl|NS|P001 extra text".data) :=
  format_prot_spec.1 ("NS".data) ("P001".data) ("extra text".data)
    (by decide) (by decide) (by decide) (by decide) (by decide) (by decide) (by decide)
